import Mathlib

/-!
Verification development for the INI document model of Nuclex.Support.Native.

The definitions below are a shallow embedding of the C++ sources:
- `IniDocumentModel::FileParser` (file `IniDocumentModel.FileParser.cpp`,
  provided as `src/unnamed/part_001`): the single-pass builder that segments
  a byte buffer into logical lines and classifies each one.
- `IniDocumentModel::MemoryEstimator` and
  `IniDocumentModel::estimateRequiredMemory` (file
  `Source/Settings/IniDocumentModel.cpp`): the dry-run sizing scan.

Bytes are modelled as `Nat` (the sources work on `std::uint8_t`; every byte
the state machines dispatch on is ASCII).  Pointers into the file buffer are
modelled as `Nat` indices from the start of the buffer; the null pointer of
an unset marker is modelled as `Option.none`.  Record sizes and alignments
use the LP64 layout the sources are compiled under:
`sizeof(Line) = 32`, `sizeof(SectionLine) = 48`, `sizeof(PropertyLine) = 64`,
all with alignment 8 (two pointers, a pointer, and one to three `size_t`
pairs, no padding).
-/

namespace NuclexIni

abbrev Byte := Nat

/-- `AllocationChunkSize` from the anonymous namespace of the parser file. -/
def AllocationChunkSize : Nat := 4096

/-- `isWhitepace` (sic) from the sources: space, tab, carriage return, newline. -/
def isWhitepace (c : Byte) : Bool :=
  c == 32 || c == 9 || c == 13 || c == 10

/-- `sizeof(Line)` on LP64: Previous, Next, Contents pointers plus Length. -/
def sizeofLine : Nat := 32

/-- `sizeof(SectionLine)` on LP64: `Line` plus NameStartIndex, NameLength. -/
def sizeofSectionLine : Nat := 48

/-- `sizeof(PropertyLine)` on LP64: `SectionLine` plus value start and length. -/
def sizeofPropertyLine : Nat := 64

/-- Common alignment of the three record types on LP64. -/
def recordAlignment : Nat := 8

/-- `growUntilAligned` from `IniDocumentModel.cpp`: grow a byte counter until
it is a multiple of the alignment. -/
def growUntilAligned (byteCount alignment : Nat) : Nat :=
  let extraByteCount := byteCount % alignment
  if extraByteCount > 0 then
    byteCount + (alignment - extraByteCount)
  else
    byteCount

/-- `getSizePlusAlignmentPadding<T>()` from the parser file: the size of the
record type padded so a following array element stays aligned. -/
def getSizePlusAlignmentPadding (size alignment : Nat) : Nat :=
  let misalignment := size % alignment
  if misalignment > 0 then
    size + (alignment - misalignment)
  else
    size

/-- State of `IniDocumentModel::MemoryEstimator`.  `linesEnded` is a ghost
counter of how many times `EndLine` ran; the C++ class has no such member,
it is bookkeeping used only to state theorems. -/
structure MemoryEstimator where
  ByteCount : Nat
  lineStartPosition : Option Nat
  sectionStarted : Bool
  sectionEnded : Bool
  foundAssignment : Bool
  lineIsMalformed : Bool
  linesEnded : Nat
deriving DecidableEq

/-- The `MemoryEstimator` constructor. -/
def MemoryEstimator.init : MemoryEstimator :=
  { ByteCount := 0, lineStartPosition := none, sectionStarted := false,
    sectionEnded := false, foundAssignment := false, lineIsMalformed := false,
    linesEnded := 0 }

/-- `MemoryEstimator::EndLine`: account one aligned record (picked from the
classification flags) plus the line's byte length, then reset the per-line
flags.  `sizeof(Line[2]) / 2` in the source equals `sizeof(Line)` (and the
same for the other record types), since the records carry no tail padding
beyond their alignment. -/
def MemoryEstimator.EndLine (m : MemoryEstimator) (filePosition : Nat) :
    MemoryEstimator :=
  let bc :=
    if m.lineIsMalformed then
      growUntilAligned m.ByteCount recordAlignment + sizeofLine
    else if m.foundAssignment then
      growUntilAligned m.ByteCount recordAlignment + sizeofPropertyLine
    else if m.sectionStarted && m.sectionEnded then
      growUntilAligned m.ByteCount recordAlignment + sizeofSectionLine
    else
      growUntilAligned m.ByteCount recordAlignment + sizeofLine
  { ByteCount := bc + (filePosition - m.lineStartPosition.getD 0),
    lineStartPosition := some filePosition,
    sectionStarted := false, sectionEnded := false,
    foundAssignment := false, lineIsMalformed := false,
    linesEnded := m.linesEnded + 1 }

/-- `MemoryEstimator::BeginLine`. -/
def MemoryEstimator.BeginLine (m : MemoryEstimator) (filePosition : Nat) :
    MemoryEstimator :=
  match m.lineStartPosition with
  | some _ =>
    let m := m.EndLine filePosition
    { m with lineStartPosition := some filePosition }
  | none => { m with lineStartPosition := some filePosition }

/-- `MemoryEstimator::BeginSection`: a second section opening on a line whose
section already closed ends the logical line first. -/
def MemoryEstimator.BeginSection (m : MemoryEstimator) (filePosition : Nat) :
    MemoryEstimator :=
  if m.sectionEnded then
    let m := m.EndLine filePosition
    { m with sectionStarted := true }
  else
    { m with sectionStarted := true }

/-- `MemoryEstimator::EndSection`. -/
def MemoryEstimator.EndSection (m : MemoryEstimator) : MemoryEstimator :=
  if m.sectionStarted then { m with sectionEnded := true } else m

/-- `MemoryEstimator::AddAssignment`: a second equals sign marks the line
malformed. -/
def MemoryEstimator.AddAssignment (m : MemoryEstimator) : MemoryEstimator :=
  if m.foundAssignment then
    { m with lineIsMalformed := true }
  else
    { m with foundAssignment := true }

/-- Loop-local state of `IniDocumentModel::estimateRequiredMemory`. -/
structure EstScanState where
  previousWasNewLine : Bool
  isInsideQuote : Bool
  encounteredComment : Bool
  estimate : MemoryEstimator
deriving DecidableEq

/-- One iteration of the scan loop inside `estimateRequiredMemory`, at byte
index `i` holding byte `c`. -/
def estimateStep (st : EstScanState) (i : Nat) (c : Byte) : EstScanState :=
  if c == 10 then
    { previousWasNewLine := true, isInsideQuote := false, encounteredComment := false,
      estimate := st.estimate.EndLine (i + 1) }
  else if st.isInsideQuote then
    if c == 34 then
      { st with previousWasNewLine := false, isInsideQuote := false }
    else
      { st with previousWasNewLine := false }
  else if st.encounteredComment then
    { st with previousWasNewLine := false }
  else if c == 59 || c == 35 then
    { st with previousWasNewLine := false, encounteredComment := true }
  else if c == 91 then
    { st with previousWasNewLine := false, estimate := st.estimate.BeginSection i }
  else if c == 93 then
    { st with previousWasNewLine := false, estimate := st.estimate.EndSection }
  else if c == 61 then
    { st with previousWasNewLine := false, estimate := st.estimate.AddAssignment }
  else if c == 34 then
    { st with previousWasNewLine := false, isInsideQuote := true }
  else
    { st with previousWasNewLine := false }

/-- The scan loop of `estimateRequiredMemory`, walking the remaining bytes
with `i` the index of the head byte. -/
def estimateLoop (st : EstScanState) (i : Nat) : List Byte → EstScanState
  | [] => st
  | c :: rest => estimateLoop (estimateStep st i c) (i + 1) rest

/-- The loop-entry state of `estimateRequiredMemory`: fresh flags and a fresh
estimator told that the first line starts at offset 0. -/
def estInitScanState : EstScanState :=
  { previousWasNewLine := false, isInsideQuote := false,
    encounteredComment := false,
    estimate := MemoryEstimator.init.BeginLine 0 }

/-- `IniDocumentModel::estimateRequiredMemory`, returning the whole final scan
state (the C++ function returns `ByteCount` of it). -/
def estimateScan (b : List Byte) : EstScanState :=
  let st := estimateLoop estInitScanState 0 b
  if st.previousWasNewLine then st
  else { st with estimate := st.estimate.EndLine b.length }

/-- The byte count `IniDocumentModel::estimateRequiredMemory` returns. -/
def estimateRequiredMemory (b : List Byte) : Nat :=
  (estimateScan b).estimate.ByteCount

/-- Classification of a submitted logical line, matching which record type
`FileParser::submitLine` allocates: `Line` for malformed lines, `PropertyLine`
when an equals sign was found, `SectionLine` when a section was found, and a
plain `Line` otherwise. -/
inductive LineKind
  | plainLine
  | sectionLine
  | propertyLine
  | malformedLine
deriving DecidableEq

/-- One submitted line record.  `spanStart`/`spanLength` are bookkeeping for
the region `[lineStart, parsePosition)` the submission covered in the source
buffer; `Contents` and `Length` are the fields stored in the allocated
record (`submitLine` discards the filled record of a malformed line and
keeps a value-initialized `Line`, so those two then read empty/zero). -/
structure ParsedLine where
  spanStart : Nat
  spanLength : Nat
  Contents : List Byte
  Length : Nat
  kind : LineKind
  NameStartIndex : Nat
  NameLength : Nat
  ValueStartIndex : Nat
  ValueLength : Nat
deriving DecidableEq

/-- Chunk bookkeeping of the parser: `remainingChunkByteCount` plus the sizes
of `target->loadedLinesMemory` (count of 4096-byte chunks) and
`target->createdLinesMemory` (count of dedicated blocks). -/
structure AllocState where
  remainingChunkByteCount : Nat
  chunkCount : Nat
  dedicatedCount : Nat
deriving DecidableEq

/-- Where `FileParser::allocateChunked` placed an allocation: inside chunk
`chunkIndex` at byte `offset`, or in a dedicated block of its own. -/
inductive AllocResult
  | chunked (chunkIndex offset totalByteCount : Nat)
  | dedicated (totalByteCount : Nat)
deriving DecidableEq

/-- `FileParser::allocateChunked<T>`: `sizePlusPadding` models
`getSizePlusAlignmentPadding<T>()` and `extraByteCount` the payload bytes.
Requests below half the chunk size are carved from the current chunk
(opening a fresh 4096-byte chunk when the remainder is too small); larger
requests get a dedicated block. -/
def allocateChunked (st : AllocState) (sizePlusPadding extraByteCount : Nat) :
    AllocState × AllocResult :=
  let totalByteCount := sizePlusPadding + extraByteCount
  if totalByteCount * 2 < AllocationChunkSize then
    if st.remainingChunkByteCount < totalByteCount then
      ({ st with chunkCount := st.chunkCount + 1,
                 remainingChunkByteCount := AllocationChunkSize - totalByteCount },
       .chunked st.chunkCount 0 totalByteCount)
    else
      ({ st with
           remainingChunkByteCount := st.remainingChunkByteCount - totalByteCount },
       .chunked (st.chunkCount - 1)
         (AllocationChunkSize - st.remainingChunkByteCount) totalByteCount)
  else
    ({ st with dedicatedCount := st.dedicatedCount + 1 },
     .dedicated totalByteCount)

/-- State of `IniDocumentModel::FileParser` during `ParseInto`, plus the
lines submitted so far (in submission order), the keys of
`target->sections`, and a ghost total `allocatedBytes` of all chunked
allocation request sizes. -/
structure ParserState where
  parsePos : Nat
  lineStart : Nat
  nameStart : Option Nat
  nameEnd : Option Nat
  valueStart : Option Nat
  valueEnd : Option Nat
  sectionFound : Bool
  equalsSignFound : Bool
  lineIsMalformed : Bool
  lines : List ParsedLine
  sections : List String
  alloc : AllocState
  allocatedBytes : Nat
deriving DecidableEq

/-- `++this->parsePosition`: advance the scan by one byte. -/
def ParserState.advance (s : ParserState) : ParserState :=
  { s with parsePos := s.parsePos + 1 }

/-- Assign `this->parsePosition`. -/
def ParserState.withParsePos (s : ParserState) (pos : Nat) : ParserState :=
  { s with parsePos := pos }

/-- Assign `this->nameStart`. -/
def ParserState.withNameStart (s : ParserState) (v : Option Nat) : ParserState :=
  { s with nameStart := v }

/-- Assign `this->nameEnd`. -/
def ParserState.withNameEnd (s : ParserState) (v : Option Nat) : ParserState :=
  { s with nameEnd := v }

/-- Assign `this->valueStart`. -/
def ParserState.withValueStart (s : ParserState) (v : Option Nat) : ParserState :=
  { s with valueStart := v }

/-- Assign `this->valueEnd`. -/
def ParserState.withValueEnd (s : ParserState) (v : Option Nat) : ParserState :=
  { s with valueEnd := v }

/-- `this->lineIsMalformed = true`. -/
def ParserState.setMalformed (s : ParserState) : ParserState :=
  { s with lineIsMalformed := true }

/-- `this->sectionFound = true`. -/
def ParserState.setSectionFound (s : ParserState) : ParserState :=
  { s with sectionFound := true }

/-- `this->equalsSignFound = true`. -/
def ParserState.setEqualsSignFound (s : ParserState) : ParserState :=
  { s with equalsSignFound := true }

/-- The position-skipping loop shared by `FileParser::parseComment` and
`FileParser::parseMalformedLine`: advance to the next newline or the end of
the buffer.  Fueled so that it reduces structurally; any fuel of at least
`b.length - pos` is enough. -/
def skipToNewline (b : List Byte) : Nat → Nat → Nat
  | 0, pos => pos
  | fuel + 1, pos =>
    if pos < b.length then
      if b.getD pos 0 == 10 then pos else skipToNewline b fuel (pos + 1)
    else pos

/-- `FileParser::parseMalformedLine`: flag the line and skip to its end. -/
def parseMalformedLine (b : List Byte) (s : ParserState) : ParserState :=
  s.setMalformed.withParsePos (skipToNewline b (b.length + 1) s.parsePos)

/-- `FileParser::generatePropertyLine` (the record fields it initializes;
the name `std::string` it builds is dropped, since the index-registration
code that would consume it is absent from the source).  Note the source
computes `ValueLength` as `valueEnd - nameStart`.  A null `nameStart`
pointer (possible when the line starts with `=`) is modelled as index 0. -/
def generatePropertyLine (s : ParserState) (len : Nat) (contents : List Byte) :
    ParsedLine :=
  let vFields :=
    match s.valueStart, s.valueEnd with
    | some vs, some ve => (vs - s.lineStart, ve - s.nameStart.getD 0)
    | _, _ => (0, 0)
  let nFields :=
    match s.nameStart, s.nameEnd with
    | some ns, some ne => (ns - s.lineStart, ne - ns)
    | _, _ => (0, 0)
  { spanStart := s.lineStart, spanLength := len, Contents := contents,
    Length := len, kind := .propertyLine,
    NameStartIndex := nFields.1, NameLength := nFields.2,
    ValueStartIndex := vFields.1, ValueLength := vFields.2 }

/-- `FileParser::generateSectionLine` (again only the record fields; the
section-index insertion block in the source is commented out). -/
def generateSectionLine (s : ParserState) (len : Nat) (contents : List Byte) :
    ParsedLine :=
  let nFields :=
    match s.nameStart, s.nameEnd with
    | some ns, some ne => (ns - s.lineStart, ne - ns)
    | _, _ => (0, 0)
  { spanStart := s.lineStart, spanLength := len, Contents := contents,
    Length := len, kind := .sectionLine,
    NameStartIndex := nFields.1, NameLength := nFields.2,
    ValueStartIndex := 0, ValueLength := 0 }

/-- `FileParser::submitLine`: advance past the line terminator, allocate the
record matching the classification flags (via `allocateLineChunked`, which
requests `getSizePlusAlignmentPadding<T>() + length` bytes and copies the
line's bytes behind the record), and reset the per-line state.  In the
malformed branch the source overwrites the just-filled record with
`new Line()`, a value-initialized `Line` whose `Contents` is null and whose
`Length` is zero; the submitted record is modelled accordingly. -/
def submitLine (b : List Byte) (s : ParserState) : ParserState :=
  let pos := s.parsePos + 1
  let len := pos - s.lineStart
  let contents := (b.drop s.lineStart).take len
  let record :=
    if s.lineIsMalformed then
      { spanStart := s.lineStart, spanLength := len, Contents := [],
        Length := 0, kind := .malformedLine, NameStartIndex := 0,
        NameLength := 0, ValueStartIndex := 0, ValueLength := 0 : ParsedLine }
    else if s.equalsSignFound then
      generatePropertyLine s len contents
    else if s.sectionFound then
      generateSectionLine s len contents
    else
      { spanStart := s.lineStart, spanLength := len, Contents := contents,
        Length := len, kind := .plainLine, NameStartIndex := 0,
        NameLength := 0, ValueStartIndex := 0, ValueLength := 0 : ParsedLine }
  let recordSize :=
    if s.lineIsMalformed then sizeofLine
    else if s.equalsSignFound then sizeofPropertyLine
    else if s.sectionFound then sizeofSectionLine
    else sizeofLine
  let padded := getSizePlusAlignmentPadding recordSize recordAlignment
  { s with parsePos := pos, lineStart := pos,
           nameStart := none, nameEnd := none,
           valueStart := none, valueEnd := none,
           sectionFound := false, equalsSignFound := false,
           lineIsMalformed := false,
           lines := s.lines ++ [record],
           alloc := (allocateChunked s.alloc padded len).1,
           allocatedBytes := s.allocatedBytes + (padded + len) }

/-- `FileParser::parseName`: the inner loop reading a section or property
name.  The three booleans are the loop locals `isInQuote`,
`quoteEncountered` and `isInSection`.  Fueled; every iteration of the C++
loop advances `parsePosition`, so fuel `b.length + 1` is ample at any entry.
The `[`-with-`sectionFound` branch calls `submitLine` (which itself
increments `parsePosition`) before recording the next name start, exactly as
the source does. -/
def parseNameLoop (b : List Byte) :
    Nat → ParserState → Bool → Bool → Bool → ParserState
  | 0, s, _, _, _ => s
  | fuel + 1, s, isInQuote, quoteEncountered, isInSection =>
    if s.parsePos < b.length then
      let current := b.getD s.parsePos 0
      if isInQuote then
        let stillInQuote := current != 34
        let s := s.withNameEnd (some s.parsePos)
        if current == 10 then
          if stillInQuote then s.setMalformed else s
        else
          parseNameLoop b fuel s.advance stillInQuote quoteEncountered isInSection
      else if current == 59 || current == 35 then
        parseMalformedLine b s
      else if current == 91 then
        if s.nameStart.isSome || isInSection then
          parseMalformedLine b s
        else if s.sectionFound then
          let s := submitLine b s
          parseNameLoop b fuel (s.withNameStart (some (s.parsePos + 1))).advance
            isInQuote quoteEncountered true
        else
          parseNameLoop b fuel (s.withNameStart (some (s.parsePos + 1))).advance
            isInQuote quoteEncountered true
      else if current == 93 then
        if s.nameStart.isNone || !isInSection then
          parseMalformedLine b s
        else
          parseNameLoop b fuel
            ((s.withNameEnd (some s.parsePos)).setSectionFound).advance
            isInQuote quoteEncountered false
      else if current == 34 then
        if s.nameStart.isSome || quoteEncountered then
          parseMalformedLine b s
        else
          parseNameLoop b fuel (s.withNameStart (some (s.parsePos + 1))).advance
            true true isInSection
      else if current == 61 then
        if isInSection then parseMalformedLine b s else s
      else if !isWhitepace current then
        if quoteEncountered then
          parseMalformedLine b s
        else
          let s :=
            if s.nameStart.isNone then s.withNameStart (some s.parsePos) else s
          parseNameLoop b fuel (s.withNameEnd (some (s.parsePos + 1))).advance
            isInQuote quoteEncountered isInSection
      else if current == 10 then
        s
      else
        parseNameLoop b fuel s.advance isInQuote quoteEncountered isInSection
    else s

/-- `FileParser::parseValue`: the inner loop reading a property value.  The
two booleans are the loop locals `isInQuote` and `quoteEncountered`.  A
comment terminator runs `parseComment` (skip to end of line) and returns. -/
def parseValueLoop (b : List Byte) :
    Nat → ParserState → Bool → Bool → ParserState
  | 0, s, _, _ => s
  | fuel + 1, s, isInQuote, quoteEncountered =>
    if s.parsePos < b.length then
      let current := b.getD s.parsePos 0
      if isInQuote then
        let stillInQuote := current != 34
        let s := s.withValueEnd (some s.parsePos)
        if current == 10 then
          if stillInQuote then s.setMalformed else s
        else
          parseValueLoop b fuel s.advance stillInQuote quoteEncountered
      else if current == 59 || current == 35 then
        s.withParsePos (skipToNewline b (b.length + 1) s.parsePos)
      else if current == 34 then
        if s.valueStart.isSome || quoteEncountered then
          parseMalformedLine b s
        else
          parseValueLoop b fuel (s.withValueStart (some (s.parsePos + 1))).advance
            true true
      else if current == 61 then
        parseMalformedLine b s
      else if !isWhitepace current then
        if quoteEncountered then
          parseMalformedLine b s
        else
          let s :=
            if s.valueStart.isNone then s.withValueStart (some s.parsePos) else s
          parseValueLoop b fuel (s.withValueEnd (some (s.parsePos + 1))).advance
            isInQuote quoteEncountered
      else if current == 10 then
        s
      else
        parseValueLoop b fuel s.advance isInQuote quoteEncountered
    else s

/-- The main loop of `FileParser::ParseInto`: dispatch on the current byte
until the end of the buffer.  Fueled; each iteration of the C++ loop
advances `parsePosition` by at least one, so fuel `b.length + 1` is ample. -/
def parseLoop (b : List Byte) : Nat → ParserState → ParserState
  | 0, s => s
  | fuel + 1, s =>
    if s.parsePos < b.length then
      let current := b.getD s.parsePos 0
      if current == 35 || current == 59 then
        parseLoop b fuel (s.withParsePos (skipToNewline b (b.length + 1) s.parsePos))
      else if current == 61 then
        if s.equalsSignFound then
          parseLoop b fuel (parseMalformedLine b s)
        else
          parseLoop b fuel s.setEqualsSignFound.advance
      else if current == 10 then
        parseLoop b fuel (submitLine b s)
      else if isWhitepace current then
        parseLoop b fuel s.advance
      else if s.equalsSignFound then
        parseLoop b fuel (parseValueLoop b (b.length + 1) s false false)
      else
        parseLoop b fuel (parseNameLoop b (b.length + 1) s false false false)
    else s

/-- The parser state right after the `FileParser` constructor and the
`resetState` call at the top of `ParseInto`. -/
def initState : ParserState :=
  { parsePos := 0, lineStart := 0, nameStart := none, nameEnd := none,
    valueStart := none, valueEnd := none, sectionFound := false,
    equalsSignFound := false, lineIsMalformed := false, lines := [],
    sections := [],
    alloc := { remainingChunkByteCount := 0, chunkCount := 0, dedicatedCount := 0 },
    allocatedBytes := 0 }

/-- `FileParser::ParseInto`: run the main loop over the whole buffer, then
submit a final line when the buffer did not end at a line start. -/
def ParseInto (b : List Byte) : ParserState :=
  let s := parseLoop b (b.length + 1) initState
  if s.lineStart < s.parsePos then submitLine b s else s

/-- Concatenation of the `Contents` bytes of every stored line, in list
order: the reconstruction the round-trip property talks about. -/
def reconstructContents (s : ParserState) : List Byte :=
  (s.lines.map ParsedLine.Contents).flatten

/-- `FileParser::getOrCreateDefaultSection`, modelled on the section-name
keys: look up the empty name and insert it when absent.  The function exists
in the source but nothing in `ParseInto` or its helpers ever calls it. -/
def getOrCreateDefaultSection (sections : List String) : List String :=
  if sections.contains "" then sections else sections ++ [""]

/-- Helper turning an ASCII string literal into the byte buffer it denotes. -/
def strBytes (s : String) : List Byte :=
  s.data.map Char.toNat

/-- A parser state whose malformed flag is set, used to instantiate
hypotheses of general theorems at a concrete input. -/
def sampleMalformedState : ParserState :=
  { initState with lineIsMalformed := true, parsePos := 1 }

/-- A parser state that has already seen an equals sign on the current line,
used to instantiate hypotheses of general theorems at a concrete input. -/
def sampleEqualsState : ParserState :=
  { initState with equalsSignFound := true }

/-- What becomes of a parser run started in a state whose malformed flag is
set: either no line has been submitted yet and the flag still stands, or the
first line submitted since then was classified Malformed.  This is the
persistence property behind "a second equals sign marks the line
Malformed". -/
def malPersist (s r : ParserState) : Prop :=
  (r.lines = s.lines ∧ r.lineIsMalformed = true) ∨
  (∃ m t, r.lines = s.lines ++ m :: t ∧ m.kind = LineKind.malformedLine)

/-- The parser run from `s` to `r` only appended to the stored line list. -/
def linesExtend (s r : ParserState) : Prop :=
  ∃ t, r.lines = s.lines ++ t

/-- Running `parseValue` from `s` to `r` submits nothing and keeps the
malformed flag. -/
def valueLoopInv (s r : ParserState) : Prop :=
  r.lines = s.lines ∧
  (s.lineIsMalformed = true → r.lineIsMalformed = true)

/-- Invariant of the `estimateRequiredMemory` scan after processing the
first `i` bytes: the estimator knows a line start `p` at or before `i`, its
byte count already covers every byte before `p` plus one `sizeof(Line)` per
ended line, and right after a newline the pending line is empty. -/
def estInv (i : Nat) (st : EstScanState) : Prop :=
  ∃ p, st.estimate.lineStartPosition = some p ∧ p ≤ i ∧
    p + sizeofLine * st.estimate.linesEnded ≤ st.estimate.ByteCount ∧
    (st.previousWasNewLine = true → p = i)

/-- C1: the claim fails on the code.  Parsing the buffer `]` produces a
single Malformed line, but `submitLine` overwrites the filled record of a
malformed line with a value-initialized `Line` (null `Contents`, zero
`Length`), so concatenating every stored line's `Contents` bytes gives the
empty buffer instead of reproducing `]`: the round trip is not
byte-identical for buffers containing Malformed lines. -/
theorem c1_roundtrip_fails_on_malformed_input :
    (ParseInto (strBytes "]")).lines.map ParsedLine.kind
        = [LineKind.malformedLine] ∧
    reconstructContents (ParseInto (strBytes "]")) = [] ∧
    strBytes "]" ≠ [] := by decide

/-- C2: the claim fails on the code.  For the one-byte buffer `a` the
dry-run scan returns 33 bytes (`sizeof(Line)` plus one content byte), while
the build pass `ParseInto` requests 34 bytes from its chunk allocator for
the same buffer, because `submitLine` increments `parsePosition` past the
end of the buffer before measuring the final line: the returned estimate is
smaller than what the build pass allocates. -/
theorem c2_estimate_smaller_than_build_allocation :
    estimateRequiredMemory (strBytes "a") = 33 ∧
    (ParseInto (strBytes "a")).allocatedBytes = 34 ∧
    estimateRequiredMemory (strBytes "a")
        < (ParseInto (strBytes "a")).allocatedBytes := by decide

/-- C3: the claim fails on the code.  For the one-byte buffer `a` (no
trailing newline) the final submitted line covers the span starting at 0
with length 2, one byte past the end of the buffer, because `submitLine`
unconditionally increments `parsePosition` before computing the length:
the final logical line's byte span does not lie entirely within the
buffer. -/
theorem c3_final_line_span_exceeds_buffer :
    (ParseInto (strBytes "a")).lines.map
        (fun l => (l.spanStart, l.spanLength)) = [(0, 2)] ∧
    (strBytes "a").length = 1 ∧
    ¬ 0 + 2 ≤ (strBytes "a").length := by decide

/-- C4: the claim fails on the code.  Parsing `[Woop][Woop]` yields one
single logical line classified Malformed, not two Section lines: at the
second `[`, `parseName` sees a non-null `nameStart` (set when the first
section opened) and runs `parseMalformedLine`, so the `submitLine` split
branch is never reached; and no Section index entry is created at all. -/
theorem c4_double_section_line_is_single_malformed :
    (ParseInto (strBytes "[Woop][Woop]")).lines.map ParsedLine.kind
        = [LineKind.malformedLine] ∧
    (ParseInto (strBytes "[Woop][Woop]")).sections = [] := by decide

/-- C7: the second half of the claim fails on the code.  Parsing the buffer
`"Hello` (a quote that is still open when the end of the final line, the end
of file, is reached) produces a line classified Plain, not Malformed:
`parseName` only sets the malformed flag for an open quote when it meets a
newline byte, and the end of the buffer is reached without one. -/
theorem c7_unterminated_quote_at_eof_not_malformed :
    (ParseInto (strBytes "\"Hello")).lines.map ParsedLine.kind
        = [LineKind.plainLine] := by decide

/-- C8: the value-span half of the claim fails on the code.  For the buffer
`a=b` plus newline, the stored property line has `ValueStartIndex = 2`,
`ValueLength = 3` and `Length = 4`: `generatePropertyLine` computes
`ValueLength` as `valueEnd - nameStart` instead of `valueEnd - valueStart`,
so `ValueStartIndex + ValueLength = 5` crosses the line's own byte-span
boundary of 4 bytes. -/
theorem c8_value_span_crosses_line_boundary :
    (ParseInto (strBytes "a=b\n")).lines.map
        (fun l => (l.kind, l.ValueStartIndex, l.ValueLength, l.Length))
        = [(LineKind.propertyLine, 2, 3, 4)] ∧
    ¬ 2 + 3 ≤ 4 := by decide

/-- C9: the claim fails on the code.  Parsing `k=v` plus newline submits one
property line but registers nothing in the section index: the registration
code in `generateSectionLine` is commented out, `generatePropertyLine`
builds the lookup name and then drops it, and `getOrCreateDefaultSection`
(which would insert the unnamed global section, third conjunct) is never
called, so the document's section map stays empty. -/
theorem c9_no_global_section_registered :
    (ParseInto (strBytes "k=v\n")).lines.map ParsedLine.kind
        = [LineKind.propertyLine] ∧
    (ParseInto (strBytes "k=v\n")).sections = [] ∧
    getOrCreateDefaultSection [] = [""] := by decide

/-- C5: confirmed.  For every allocation request whose total size
`s = sizePlusPadding + extraByteCount` (aligned record size plus payload)
satisfies `2 × s < 4096`, `allocateChunked` returns a chunk placement whose
bytes lie entirely inside one 4096-byte chunk — the current (last) chunk —
opening a fresh chunk at offset 0 exactly when fewer than `s` bytes remain;
otherwise the request becomes a dedicated block tracked individually.  The
two hypotheses are invariants of every reachable allocator state: the
remaining count never exceeds the chunk size, and it is zero before the
first chunk exists. -/
theorem c5_allocateChunked_placement (st : AllocState)
    (sizePlusPadding extraByteCount : Nat)
    (hpos : 0 < sizePlusPadding)
    (hinv : st.remainingChunkByteCount ≤ AllocationChunkSize)
    (hchunk : st.chunkCount = 0 → st.remainingChunkByteCount = 0) :
    ((sizePlusPadding + extraByteCount) * 2 < AllocationChunkSize →
      ∃ chunkIndex offset,
        (allocateChunked st sizePlusPadding extraByteCount).2
            = AllocResult.chunked chunkIndex offset
                (sizePlusPadding + extraByteCount) ∧
        offset + (sizePlusPadding + extraByteCount) ≤ AllocationChunkSize ∧
        chunkIndex + 1
            = (allocateChunked st sizePlusPadding extraByteCount).1.chunkCount ∧
        (st.remainingChunkByteCount < sizePlusPadding + extraByteCount →
          offset = 0 ∧
          (allocateChunked st sizePlusPadding extraByteCount).1.chunkCount
              = st.chunkCount + 1) ∧
        (sizePlusPadding + extraByteCount ≤ st.remainingChunkByteCount →
          (allocateChunked st sizePlusPadding extraByteCount).1.chunkCount
              = st.chunkCount)) ∧
    (¬ (sizePlusPadding + extraByteCount) * 2 < AllocationChunkSize →
      (allocateChunked st sizePlusPadding extraByteCount).2
          = AllocResult.dedicated (sizePlusPadding + extraByteCount) ∧
      (allocateChunked st sizePlusPadding extraByteCount).1.dedicatedCount
          = st.dedicatedCount + 1) := by
  simp only [AllocationChunkSize] at hinv ⊢
  constructor
  · intro h2
    by_cases hrem : st.remainingChunkByteCount < sizePlusPadding + extraByteCount
    · refine ⟨st.chunkCount, 0, ?_⟩
      simp [allocateChunked, AllocationChunkSize, h2, hrem]
      omega
    · have hcc : 1 ≤ st.chunkCount := by
        rcases Nat.eq_zero_or_pos st.chunkCount with h0 | h1
        · have := hchunk h0
          omega
        · omega
      refine ⟨st.chunkCount - 1, 4096 - st.remainingChunkByteCount, ?_⟩
      simp [allocateChunked, AllocationChunkSize, h2, hrem]
      omega
  · intro h2
    simp [allocateChunked, AllocationChunkSize, h2]

/-- Witness for C5 at a concrete input: the freshly constructed allocator
state and a request of 32 header bytes with no payload. -/
theorem c5_allocateChunked_placement_witness :
    (0 < 32 ∧
      (⟨0, 0, 0⟩ : AllocState).remainingChunkByteCount ≤ AllocationChunkSize) ∧
    (((32 + 0) * 2 < AllocationChunkSize →
      ∃ chunkIndex offset,
        (allocateChunked ⟨0, 0, 0⟩ 32 0).2
            = AllocResult.chunked chunkIndex offset (32 + 0) ∧
        offset + (32 + 0) ≤ AllocationChunkSize ∧
        chunkIndex + 1 = (allocateChunked ⟨0, 0, 0⟩ 32 0).1.chunkCount ∧
        ((⟨0, 0, 0⟩ : AllocState).remainingChunkByteCount < 32 + 0 →
          offset = 0 ∧
          (allocateChunked ⟨0, 0, 0⟩ 32 0).1.chunkCount
              = (⟨0, 0, 0⟩ : AllocState).chunkCount + 1) ∧
        (32 + 0 ≤ (⟨0, 0, 0⟩ : AllocState).remainingChunkByteCount →
          (allocateChunked ⟨0, 0, 0⟩ 32 0).1.chunkCount
              = (⟨0, 0, 0⟩ : AllocState).chunkCount)) ∧
    (¬ (32 + 0) * 2 < AllocationChunkSize →
      (allocateChunked ⟨0, 0, 0⟩ 32 0).2 = AllocResult.dedicated (32 + 0) ∧
      (allocateChunked ⟨0, 0, 0⟩ 32 0).1.dedicatedCount
          = (⟨0, 0, 0⟩ : AllocState).dedicatedCount + 1)) :=
  ⟨⟨by decide, by decide⟩,
   c5_allocateChunked_placement ⟨0, 0, 0⟩ 32 0 (by decide) (by decide)
     (fun _ => rfl)⟩

/-- Aligning a byte counter never shrinks it. -/
theorem growUntilAligned_ge (byteCount alignment : Nat) :
    byteCount ≤ growUntilAligned byteCount alignment := by
  simp only [growUntilAligned]
  split <;> omega

/-- `MemoryEstimator::EndLine` adds at least `sizeof(Line)` plus the byte
length of the ended line, moves the line start to the given position, and
bumps the ended-line counter. -/
theorem endLine_facts (m : MemoryEstimator) (pos : Nat) :
    m.ByteCount + sizeofLine + (pos - m.lineStartPosition.getD 0)
        ≤ (m.EndLine pos).ByteCount ∧
    (m.EndLine pos).lineStartPosition = some pos ∧
    (m.EndLine pos).linesEnded = m.linesEnded + 1 := by
  have h1 := growUntilAligned_ge m.ByteCount recordAlignment
  simp only [MemoryEstimator.EndLine]
  refine ⟨?_, trivial, trivial⟩
  split
  · omega
  · split
    · simp only [sizeofLine, sizeofPropertyLine] at *
      omega
    · split
      · simp only [sizeofLine, sizeofSectionLine] at *
        omega
      · omega

/-- One scan step never decreases the accumulated byte count. -/
theorem estimateStep_ByteCount_mono (st : EstScanState) (i : Nat) (c : Byte) :
    st.estimate.ByteCount ≤ (estimateStep st i c).estimate.ByteCount := by
  have hEnd1 := (endLine_facts st.estimate (i + 1)).1
  have hEnd2 := (endLine_facts st.estimate i).1
  simp only [estimateStep]
  repeat' split
  all_goals
    first
    | exact le_refl _
    | exact le_trans (by omega) hEnd1
    | (simp only [MemoryEstimator.BeginSection]
       split
       · exact le_trans (by omega) hEnd2
       · exact le_refl _)
    | (simp only [MemoryEstimator.EndSection]
       split <;> exact le_refl _)
    | (simp only [MemoryEstimator.AddAssignment]
       split <;> exact le_refl _)

/-- One scan step preserves the estimator invariant. -/
theorem estInv_step (st : EstScanState) (i : Nat) (c : Byte)
    (h : estInv i st) : estInv (i + 1) (estimateStep st i c) := by
  obtain ⟨p, hp, hpi, hbc, _⟩ := h
  simp only [estimateStep]
  repeat' split
  all_goals
    first
    | exact ⟨p, hp, by omega, hbc, fun hf => by simp at hf⟩
    | (obtain ⟨hb, hl, hn⟩ := endLine_facts st.estimate (i + 1)
       rw [hp] at hb
       simp only [Option.getD_some] at hb
       refine ⟨i + 1, hl, le_refl _, ?_, fun _ => rfl⟩
       show i + 1 + sizeofLine * (st.estimate.EndLine (i + 1)).linesEnded
           ≤ (st.estimate.EndLine (i + 1)).ByteCount
       rw [hn]
       simp only [sizeofLine] at hb hbc ⊢
       omega)
    | (simp only [MemoryEstimator.BeginSection]
       split
       · obtain ⟨hb, hl, hn⟩ := endLine_facts st.estimate i
         rw [hp] at hb
         simp only [Option.getD_some] at hb
         refine ⟨i, hl, by omega, ?_, fun hf => by simp at hf⟩
         show i + sizeofLine * (st.estimate.EndLine i).linesEnded
             ≤ (st.estimate.EndLine i).ByteCount
         rw [hn]
         simp only [sizeofLine] at hb hbc ⊢
         omega
       · exact ⟨p, hp, by omega, hbc, fun hf => by simp at hf⟩)
    | (simp only [MemoryEstimator.EndSection]
       split <;> exact ⟨p, hp, by omega, hbc, fun hf => by simp at hf⟩)
    | (simp only [MemoryEstimator.AddAssignment]
       split <;> exact ⟨p, hp, by omega, hbc, fun hf => by simp at hf⟩)

/-- The scan loop preserves the estimator invariant. -/
theorem estInv_loop (rest : List Byte) :
    ∀ st i, estInv i st → estInv (i + rest.length) (estimateLoop st i rest) := by
  induction rest with
  | nil => intro st i h; simpa using h
  | cons c cs ih =>
    intro st i h
    have h1 := ih (estimateStep st i c) (i + 1) (estInv_step st i c h)
    have h2 : i + (c :: cs).length = i + 1 + cs.length := by
      simp [List.length_cons]
      omega
    rw [h2]
    simpa [estimateLoop] using h1

/-- C10: confirmed.  For every input buffer of `n` bytes,
`estimateRequiredMemory` returns at least `n` plus `sizeof(Line)` for each
logical line its scan terminated (first conjunct, with `linesEnded` the
ghost count of `EndLine` calls); every `EndLine` call adds the full byte
length of the line plus an alignment-padded record size that is at least
`sizeof(Line)` (second conjunct); and the accumulated `ByteCount` never
decreases across a scan step (third conjunct). -/
theorem c10_estimate_accounts_each_line (b : List Byte) :
    b.length + sizeofLine * (estimateScan b).estimate.linesEnded
        ≤ estimateRequiredMemory b ∧
    (∀ (m : MemoryEstimator) (pos : Nat),
      m.ByteCount + sizeofLine + (pos - m.lineStartPosition.getD 0)
        ≤ (m.EndLine pos).ByteCount) ∧
    (∀ (st : EstScanState) (i : Nat) (c : Byte),
      st.estimate.ByteCount ≤ (estimateStep st i c).estimate.ByteCount) := by
  refine ⟨?_, fun m pos => (endLine_facts m pos).1, estimateStep_ByteCount_mono⟩
  have h0 : estInv 0 estInitScanState := by
    refine ⟨0, rfl, le_refl 0, ?_, fun _ => rfl⟩
    simp [estInitScanState, MemoryEstimator.init, MemoryEstimator.BeginLine]
  have hloop := estInv_loop b estInitScanState 0 h0
  simp only [Nat.zero_add] at hloop
  obtain ⟨p, hp, hpi, hbc, hprev⟩ := hloop
  simp only [estimateRequiredMemory, estimateScan]
  split
  · rename_i hpn
    have hpb := hprev hpn
    simp only [sizeofLine] at hbc ⊢
    omega
  · obtain ⟨hb, hl, hn⟩ := endLine_facts
      (estimateLoop estInitScanState 0 b).estimate b.length
    rw [hp] at hb
    simp only [Option.getD_some] at hb
    show b.length + sizeofLine *
        ((estimateLoop estInitScanState 0 b).estimate.EndLine
            b.length).linesEnded
        ≤ ((estimateLoop estInitScanState 0 b).estimate.EndLine
            b.length).ByteCount
    rw [hn]
    simp only [sizeofLine] at hb hbc ⊢
    omega

set_option maxHeartbeats 1000000

/-- `submitLine` appends exactly one record to the stored line list. -/
theorem submit_lines_mono (b : List Byte) (s : ParserState) :
    ∃ r, (submitLine b s).lines = s.lines ++ [r] :=
  ⟨_, rfl⟩

/-- When the malformed flag is set, the record `submitLine` appends is
classified Malformed. -/
theorem submit_malformed (b : List Byte) (s : ParserState)
    (hm : s.lineIsMalformed = true) :
    ∃ r t, (submitLine b s).lines = s.lines ++ r :: t ∧
      r.kind = LineKind.malformedLine := by
  refine ⟨_, [], rfl, ?_⟩
  simp [submitLine, hm]

/-- `parseValue` never submits a line and never clears the malformed flag. -/
theorem parseValueLoop_fields (b : List Byte) :
    ∀ (fuel : Nat) (s : ParserState) (q1 q2 : Bool),
      valueLoopInv s (parseValueLoop b fuel s q1 q2) := by
  intro fuel
  induction fuel with
  | zero => intro s q1 q2; exact ⟨rfl, fun h => h⟩
  | succ f ih =>
    intro s q1 q2
    simp only [parseValueLoop]
    repeat' split
    all_goals
      first
      | exact ⟨rfl, fun h => h⟩
      | exact ⟨rfl, fun _ => rfl⟩
      | exact ih _ _ _

/-- `parseName` only ever appends to the stored line list. -/
theorem parseNameLoop_mono (b : List Byte) :
    ∀ (fuel : Nat) (s : ParserState) (q1 q2 q3 : Bool),
      linesExtend s (parseNameLoop b fuel s q1 q2 q3) := by
  intro fuel
  induction fuel with
  | zero => intro s q1 q2 q3; exact ⟨[], (List.append_nil _).symm⟩
  | succ f ih =>
    intro s q1 q2 q3
    simp only [parseNameLoop]
    repeat' split
    all_goals
      first
      | exact ih _ _ _ _
      | exact ⟨[], (List.append_nil _).symm⟩
      | (obtain ⟨r, hr⟩ := submit_lines_mono b s
         obtain ⟨t, ht⟩ := ih
           ((submitLine b s).withNameStart
             (some ((submitLine b s).parsePos + 1))).advance q1 q2 true
         refine ⟨r :: t, ?_⟩
         rw [ht]
         show (submitLine b s).lines ++ t = s.lines ++ r :: t
         rw [hr]
         simp)

/-- Starting `parseName` with the malformed flag set, the flag persists to
the first line submitted, which is then classified Malformed. -/
theorem parseNameLoop_malPersist (b : List Byte) :
    ∀ (fuel : Nat) (s : ParserState) (q1 q2 q3 : Bool),
      s.lineIsMalformed = true →
      malPersist s (parseNameLoop b fuel s q1 q2 q3) := by
  intro fuel
  induction fuel with
  | zero => intro s q1 q2 q3 hm; exact Or.inl ⟨rfl, hm⟩
  | succ f ih =>
    intro s q1 q2 q3 hm
    simp only [parseNameLoop]
    repeat' split
    all_goals
      first
      | exact ih _ _ _ _ hm
      | exact Or.inl ⟨rfl, hm⟩
      | exact Or.inl ⟨rfl, rfl⟩
      | (obtain ⟨r, t0, hr, hk⟩ := submit_malformed b s hm
         obtain ⟨t, ht⟩ := parseNameLoop_mono b f
           ((submitLine b s).withNameStart
             (some ((submitLine b s).parsePos + 1))).advance q1 q2 true
         refine Or.inr ⟨r, t0 ++ t, ?_, hk⟩
         rw [ht]
         show (submitLine b s).lines ++ t = s.lines ++ r :: (t0 ++ t)
         rw [hr]
         simp)

/-- The main parser loop only ever appends to the stored line list. -/
theorem parseLoop_mono (b : List Byte) :
    ∀ (fuel : Nat) (s : ParserState), linesExtend s (parseLoop b fuel s) := by
  intro fuel
  induction fuel with
  | zero => intro s; exact ⟨[], (List.append_nil _).symm⟩
  | succ f ih =>
    intro s
    simp only [parseLoop]
    repeat' split
    all_goals
      first
      | exact ih _
      | exact ⟨[], (List.append_nil _).symm⟩
      | (obtain ⟨r, hr⟩ := submit_lines_mono b s
         obtain ⟨t, ht⟩ := ih (submitLine b s)
         refine ⟨r :: t, ?_⟩
         rw [ht, hr]
         simp)
      | (obtain ⟨t, ht⟩ := ih (parseValueLoop b (b.length + 1) s false false)
         refine ⟨t, ?_⟩
         rw [ht, (parseValueLoop_fields b (b.length + 1) s false false).1])
      | (obtain ⟨t1, ht1⟩ := parseNameLoop_mono b (b.length + 1) s false false false
         obtain ⟨t, ht⟩ := ih (parseNameLoop b (b.length + 1) s false false false)
         refine ⟨t1 ++ t, ?_⟩
         rw [ht, ht1]
         simp)

/-- Persistence of the malformed flag composes across a continuation that
only appends lines. -/
theorem malPersist_compose (s s2 r : ParserState)
    (h1 : malPersist s s2)
    (h2 : linesExtend s2 r)
    (h3 : s2.lineIsMalformed = true → malPersist s2 r) :
    malPersist s r := by
  obtain ⟨t2, ht2⟩ := h2
  rcases h1 with ⟨he, hf⟩ | ⟨m, t, he, hk⟩
  · rcases h3 hf with ⟨he2, hf2⟩ | ⟨m2, tt, he2, hk2⟩
    · exact Or.inl ⟨by rw [he2, he], hf2⟩
    · exact Or.inr ⟨m2, tt, by rw [he2, he], hk2⟩
  · refine Or.inr ⟨m, t ++ t2, ?_, hk⟩
    rw [ht2, he]
    simp

/-- Starting the main parser loop with the malformed flag set, the first line
submitted afterwards (if any) is classified Malformed, and until then the
flag stays set. -/
theorem parseLoop_malPersist (b : List Byte) :
    ∀ (fuel : Nat) (s : ParserState), s.lineIsMalformed = true →
      malPersist s (parseLoop b fuel s) := by
  intro fuel
  induction fuel with
  | zero => intro s hm; exact Or.inl ⟨rfl, hm⟩
  | succ f ih =>
    intro s hm
    simp only [parseLoop]
    repeat' split
    all_goals
      first
      | exact Or.inl ⟨rfl, hm⟩
      | exact malPersist_compose s _ _ (Or.inl ⟨rfl, hm⟩)
          (parseLoop_mono b f _) (fun h => ih _ h)
      | exact malPersist_compose s (parseMalformedLine b s) _
          (Or.inl ⟨rfl, rfl⟩) (parseLoop_mono b f _) (fun h => ih _ h)
      | exact malPersist_compose s (submitLine b s) _
          (Or.inr (submit_malformed b s hm))
          (parseLoop_mono b f _) (fun h => ih _ h)
      | exact malPersist_compose s (parseValueLoop b (b.length + 1) s false false) _
          (Or.inl ⟨(parseValueLoop_fields b (b.length + 1) s false false).1,
                   (parseValueLoop_fields b (b.length + 1) s false false).2 hm⟩)
          (parseLoop_mono b f _) (fun h => ih _ h)
      | exact malPersist_compose s (parseNameLoop b (b.length + 1) s false false false) _
          (parseNameLoop_malPersist b (b.length + 1) s false false false hm)
          (parseLoop_mono b f _) (fun h => ih _ h)

/-- C6: confirmed.  The concrete case: parsing `Foo = Bar = Baz` yields
exactly one logical line, classified Malformed (first conjunct).  In
general: `parseMalformedLine` sets the malformed flag (second conjunct); a
state whose malformed flag is set keeps it until the next line submission,
whose line is then classified Malformed (third conjunct); and when the
parser stands on an `=` byte outside any quote after an equals sign was
already found on the logical line — whether in the main loop (fourth
conjunct) or while scanning the value (fifth conjunct) — it runs
`parseMalformedLine` on the spot. -/
theorem c6_second_equals_is_malformed (b : List Byte) (s s2 : ParserState)
    (fuel : Nat)
    (hm : s.lineIsMalformed = true)
    (hpos : s2.parsePos < b.length)
    (hcur : b.getD s2.parsePos 0 = 61)
    (heq : s2.equalsSignFound = true) :
    (ParseInto (strBytes "Foo = Bar = Baz")).lines.map ParsedLine.kind
        = [LineKind.malformedLine] ∧
    (parseMalformedLine b s).lineIsMalformed = true ∧
    malPersist s (parseLoop b fuel s) ∧
    parseLoop b (fuel + 1) s2 = parseLoop b fuel (parseMalformedLine b s2) ∧
    parseValueLoop b (fuel + 1) s2 false false = parseMalformedLine b s2 := by
  refine ⟨by decide, rfl, parseLoop_malPersist b fuel s hm, ?_, ?_⟩
  · simp only [parseLoop]
    rw [if_pos hpos, hcur]
    simp [heq]
  · simp only [parseValueLoop]
    rw [if_pos hpos, hcur]
    simp

/-- Witness for C6 at concrete inputs: the two-byte buffer of two equals
signs, a state with the malformed flag set, and a state standing on the
second equals sign of its line. -/
theorem c6_second_equals_is_malformed_witness :
    (sampleMalformedState.lineIsMalformed = true ∧
     sampleEqualsState.parsePos < (strBytes "==").length ∧
     (strBytes "==").getD sampleEqualsState.parsePos 0 = 61 ∧
     sampleEqualsState.equalsSignFound = true) ∧
    ((ParseInto (strBytes "Foo = Bar = Baz")).lines.map ParsedLine.kind
        = [LineKind.malformedLine] ∧
     (parseMalformedLine (strBytes "==") sampleMalformedState).lineIsMalformed
        = true ∧
     malPersist sampleMalformedState
        (parseLoop (strBytes "==") 1 sampleMalformedState) ∧
     parseLoop (strBytes "==") (1 + 1) sampleEqualsState
        = parseLoop (strBytes "==") 1
            (parseMalformedLine (strBytes "==") sampleEqualsState) ∧
     parseValueLoop (strBytes "==") (1 + 1) sampleEqualsState false false
        = parseMalformedLine (strBytes "==") sampleEqualsState) :=
  ⟨⟨by decide, by decide, by decide, by decide⟩,
   c6_second_equals_is_malformed (strBytes "==") sampleMalformedState
     sampleEqualsState 1 (by decide) (by decide) (by decide) (by decide)⟩

end NuclexIni
